import Mathlib

/-!
Verification of the trace-and-rewrite conversion engine in
`torch2trt/torch2trt.py` (shallow embedding).

The embedding models, straight from the source:

* the interception wrapper produced by `attach_converter` (lines 279-312),
  acting on the mutable `ConversionContext` state (lock, method_args,
  method_kwargs, method_return);
* an interpreter for whole trees of intercepted calls, to reason about the
  re-entrancy lock and suppression of nested conversions;
* `ConversionHook.__enter__/__exit__` and `ConversionContext.__enter__/__exit__`
  acting on the host operator table (lines 315-397);
* the dtype/device mapping helpers (lines 26-73);
* the broadcast and constant normalizer: `check_torch_dtype`,
  `add_missing_trt_tensors`, `broadcast_trt_tensors` and `trt_`
  (lines 123-261), over a network-builder state that records the constant
  nodes and shuffle layers it creates and the per-tensor `_trt` attachment;
* the registration machinery `get_module_qualname` / `tensorrt_converter`
  (lines 612-659).
-/

namespace Torch2TRT

/-! ## Conversion context state and the interception wrapper

`ConversionContext.__init__` (lines 376-388) keeps a boolean re-entrancy
`lock` and the operation record `method_args` / `method_kwargs` /
`method_return` (Python `None` is modelled as `Option.none`).  The state is
polymorphic in the types of the recorded arguments, keyword arguments and
return value. -/

structure CtxState (α β γ : Type) where
  lock : Bool
  method_args : Option α
  method_kwargs : Option β
  method_return : Option γ
  deriving DecidableEq

/-- Source `ConversionContext.__init__` (lines 380-383): the lock starts released and
the operation record starts absent. -/
def CtxState.init : CtxState α β γ :=
  { lock := false, method_args := none, method_kwargs := none, method_return := none }

/-- The part of a converter registration that the wrapper consults:
the `is_real` flag (registration dict key `"is_real"`). -/
structure Converter where
  is_real : Bool
  deriving DecidableEq

/-- The `wrapper` closure built by `attach_converter` (lines 283-310), as a
state transformer.  `method` is the captured original implementation
(`converter['method_impl']`), a pure value function of the call arguments;
`methodEff` is the effect the original implementation's own execution has on
the context state (nested intercepted calls may mutate it); `rule` is the
conversion rule `converter["converter"]`, an arbitrary effect on the context
state.  The wrapper:
1. reads `skip := ctx.lock`, and if the lock is free and the converter is
   real, acquires the lock;
2. runs the original method;
3. if not skipping, populates the operation record, runs the conversion
   rule, then resets the record to `none` and releases the lock;
4. returns the original method's outputs. -/
def wrapper (conv : Converter) (method : α → β → γ)
    (methodEff : CtxState α β γ → CtxState α β γ)
    (rule : CtxState α β γ → CtxState α β γ)
    (args : α) (kwargs : β) (s : CtxState α β γ) : γ × CtxState α β γ :=
  let skip := s.lock
  let s1 := if !s.lock && conv.is_real then { s with lock := true } else s
  let outputs := method args kwargs
  let s2 := methodEff s1
  if skip then (outputs, s2)
  else
    let s3 := { s2 with method_args := some args, method_kwargs := some kwargs,
                        method_return := some outputs }
    let s4 := rule s3
    let s5 := { s4 with method_args := none, method_kwargs := none,
                        method_return := none, lock := false }
    (outputs, s5)

/-- C1: For every registered operation and every input, calling the patched
(wrapped) operation returns exactly the value that the original unpatched
implementation returns on that input, whether or not conversion was
triggered: the wrapper runs the original implementation unconditionally and
returns its result unchanged (`attach_converter`, lines 293 and 310). -/
theorem wrapper_returns_original (conv : Converter) (method : α → β → γ)
    (methodEff rule : CtxState α β γ → CtxState α β γ)
    (args : α) (kwargs : β) (s : CtxState α β γ) :
    (wrapper conv method methodEff rule args kwargs s).1 = method args kwargs := by
  unfold wrapper
  dsimp only
  by_cases h : s.lock <;> simp [h]

/-- C5: After an intercepted call's conversion rule returns, the wrapper
clears the Operation Record — positional arguments, named arguments and
return value are all reset to absent (`attach_converter`, lines 304-307) —
so a read of the record after the wrapper finishes finds no data, never the
previous call's values.  The hypothesis `s.lock = false` states that this
call did trigger conversion (its rule did run); the conclusion holds for an
arbitrary conversion rule `rule`, even one that writes the record.  The
freshly initialized context also carries an absent record. -/
theorem wrapper_clears_operation_record (conv : Converter) (method : α → β → γ)
    (methodEff rule : CtxState α β γ → CtxState α β γ)
    (args : α) (kwargs : β) (s : CtxState α β γ) (h : s.lock = false) :
    ((wrapper conv method methodEff rule args kwargs s).2.method_args = none
      ∧ (wrapper conv method methodEff rule args kwargs s).2.method_kwargs = none
      ∧ (wrapper conv method methodEff rule args kwargs s).2.method_return = none)
    ∧ ((CtxState.init : CtxState α β γ).method_args = none
      ∧ (CtxState.init : CtxState α β γ).method_kwargs = none
      ∧ (CtxState.init : CtxState α β γ).method_return = none) := by
  unfold wrapper CtxState.init
  simp [h]

/-- Witness for `wrapper_clears_operation_record` at a concrete call: the
identity method on naturals, a rule that deliberately scribbles over the
record, and the freshly initialized context (whose lock is free). -/
theorem wrapper_clears_operation_record_witness :
    ((wrapper ⟨true⟩ (fun (a : Nat) (_ : Nat) => a + 1) id
        (fun s => { s with method_return := some 99 }) 3 4 CtxState.init).2.method_args = none
      ∧ (wrapper ⟨true⟩ (fun (a : Nat) (_ : Nat) => a + 1) id
        (fun s => { s with method_return := some 99 }) 3 4 CtxState.init).2.method_kwargs = none
      ∧ (wrapper ⟨true⟩ (fun (a : Nat) (_ : Nat) => a + 1) id
        (fun s => { s with method_return := some 99 }) 3 4 CtxState.init).2.method_return = none)
    ∧ ((CtxState.init : CtxState Nat Nat Nat).method_args = none
      ∧ (CtxState.init : CtxState Nat Nat Nat).method_kwargs = none
      ∧ (CtxState.init : CtxState Nat Nat Nat).method_return = none) :=
  wrapper_clears_operation_record ⟨true⟩ (fun a _ => a + 1) id
    (fun s => { s with method_return := some 99 }) 3 4 CtxState.init rfl

/-! ## Trees of intercepted calls and lock-based suppression

To reason about the re-entrancy lock we interpret whole trees of intercepted
calls.  A `Call.node i real nested` is one invocation of a patched operation:
`i` identifies the call, `real` is its converter's `is_real` flag, and
`nested` are the intercepted calls that the original implementation makes
internally (in order) while it executes.  The interpreter `runCall` performs,
for each node, exactly the control flow of the `wrapper` in
`attach_converter` (lines 283-310), and additionally reports the list of
call identifiers whose conversion rule actually ran.  Conversion rules
themselves only build network layers and attach handles; they do not touch
the context's lock or record, so the rule's effect on the context state is
the identity here, and "the conversion rule of call `i` ran" (equivalently:
call `i` attached Graph Handles) is modelled by `i` appearing in the emitted
list. -/

inductive Call : Type where
  | node (id : Nat) (is_real : Bool) (nested : List Call)

mutual

/-- Interpret one intercepted call (and, mutually, a list of sibling calls)
against the context state, mirroring the `wrapper` of `attach_converter`:
read `skip` from the lock, acquire the lock for a real converter when free,
run the nested calls of the original implementation, then — if not skipping
— populate the operation record with this call's data, run the rule, clear
the record and release the lock.  Returns the final state together with the
identifiers of all calls whose conversion rule ran, in completion order. -/
def runCall (s : CtxState Nat Nat Nat) : Call → CtxState Nat Nat Nat × List Nat
  | Call.node i real nested =>
    let skip := s.lock
    let s1 := if !s.lock && real then { s with lock := true } else s
    let res := runCalls s1 nested
    if skip then res
    else
      let s2 := { res.1 with method_args := some i, method_kwargs := some i,
                             method_return := some i }
      let s3 := { s2 with method_args := none, method_kwargs := none,
                          method_return := none, lock := false }
      (s3, res.2 ++ [i])

/-- Interpret a list of sibling intercepted calls left to right, threading
the context state. -/
def runCalls (s : CtxState Nat Nat Nat) : List Call → CtxState Nat Nat Nat × List Nat
  | [] => (s, [])
  | c :: cs =>
    let r1 := runCall s c
    let r2 := runCalls r1.1 cs
    (r2.1, r1.2 ++ r2.2)

end

mutual

/-- While the re-entrancy lock is held, an intercepted call is a pure
pass-through: it leaves the context state untouched and runs no conversion
rule. -/
theorem runCall_locked : ∀ (c : Call) (s : CtxState Nat Nat Nat),
    s.lock = true → runCall s c = (s, [])
  | Call.node _ real nested, s, h => by
      have hn := runCalls_locked nested s h
      unfold runCall
      simp [h, hn]

/-- While the re-entrancy lock is held, a list of intercepted calls is a pure
pass-through. -/
theorem runCalls_locked : ∀ (cs : List Call) (s : CtxState Nat Nat Nat),
    s.lock = true → runCalls s cs = (s, [])
  | [], _, _ => by unfold runCalls; rfl
  | c :: cs, s, h => by
      have h1 := runCall_locked c s h
      have h2 := runCalls_locked cs s h
      unfold runCalls
      simp [h1, h2]

end

/-- C2: During a trace, an intercepted call runs its conversion rule if and
only if the context's re-entrancy lock is not already held at entry; a call
whose converter is real acquires the lock before its original implementation
runs, so none of the calls nested inside that implementation runs its
conversion rule (hence none attaches Graph Handles, which only conversion
rules do), and when the outer real call's conversion finishes the lock is
released (`attach_converter`, lines 284-308). -/
theorem wrapper_lock_gates_conversion (s : CtxState Nat Nat Nat) (i : Nat)
    (real : Bool) (nested : List Call) :
    ((runCall s (Call.node i real nested)).2 ≠ [] ↔ s.lock = false)
    ∧ (s.lock = false → real = true →
        (runCall s (Call.node i real nested)).2 = [i]
        ∧ (runCalls { s with lock := true } nested).2 = []
        ∧ (runCall s (Call.node i real nested)).1.lock = false) := by
  constructor
  · by_cases h : s.lock
    · rw [runCall_locked _ s h]
      simp [h]
    · simp only [Bool.not_eq_true] at h
      unfold runCall
      simp [h]
  · intro h hr
    have hn := runCalls_locked nested { s with lock := true } rfl
    unfold runCall
    simp [h, hr, hn]

/-- Witness for `wrapper_lock_gates_conversion`: from a fresh context, a real
call with identifier 5 whose implementation internally invokes two other
registered operations (one real, one not) converts exactly once — only call
5's rule runs — and the lock is free again afterwards. -/
theorem wrapper_lock_gates_conversion_witness :
    (runCall CtxState.init
        (Call.node 5 true [Call.node 6 true [], Call.node 7 false []])).2 = [5]
    ∧ (runCalls { CtxState.init with lock := true }
        [Call.node 6 true [], Call.node 7 false []]).2 = []
    ∧ (runCall CtxState.init
        (Call.node 5 true [Call.node 6 true [], Call.node 7 false []])).1.lock = false :=
  (wrapper_lock_gates_conversion CtxState.init 5 true
    [Call.node 6 true [], Call.node 7 false []]).2 rfl rfl

/-! ## Conversion hooks and the host operator table

`ConversionHook` (lines 315-335) patches one location of the host operator
table: `__enter__` writes the wrapper built by `attach_converter` at the
registration's resolved location (`_set_method`), `__exit__` writes back the
captured original `converter['method_impl']`.  `ConversionContext.__enter__`
enters every hook in order and `__exit__` exits every hook in order (lines
390-397); Python's `with` statement runs `__exit__` on every exit path, also
when the traced execution or a conversion rule raises, so the table
transformation on an exceptional exit is the same `ctxExit` modelled here.
The operator table is modelled as a total map from patch locations to
implementations. -/

structure Hook (K V : Type) where
  key : K
  method_impl : V
  wrapped : V

/-- Source `ConversionHook.__enter__`: overwrite the hook's location with the
wrapper. -/
def hookEnter [DecidableEq K] (t : K → V) (h : Hook K V) : K → V :=
  fun k => if k = h.key then h.wrapped else t k

/-- Source `ConversionHook.__exit__`: overwrite the hook's location with the
captured original implementation. -/
def hookExit [DecidableEq K] (t : K → V) (h : Hook K V) : K → V :=
  fun k => if k = h.key then h.method_impl else t k

/-- Source `ConversionContext.__enter__` (lines 390-393): enter every hook in
order. -/
def ctxEnter [DecidableEq K] (t : K → V) (hooks : List (Hook K V)) : K → V :=
  hooks.foldl hookEnter t

/-- Source `ConversionContext.__exit__` (lines 395-397): exit every hook in
order. -/
def ctxExit [DecidableEq K] (t : K → V) (hooks : List (Hook K V)) : K → V :=
  hooks.foldl hookExit t

/-- Locations no hook patches are untouched by entering the hooks. -/
theorem ctxEnter_untouched [DecidableEq K] (hooks : List (Hook K V)) :
    ∀ (t : K → V) (k : K), (∀ h ∈ hooks, k ≠ h.key) → ctxEnter t hooks k = t k := by
  induction hooks with
  | nil => intro t k _; rfl
  | cons h hs ih =>
      intro t k hk
      have hkh : k ≠ h.key := hk h (List.mem_cons_self h hs)
      have : ctxEnter t (h :: hs) = ctxEnter (hookEnter t h) hs := rfl
      rw [this, ih (hookEnter t h) k (fun h' hh' => hk h' (List.mem_cons_of_mem h hh'))]
      simp [hookEnter, hkh]

/-- Exiting all hooks restores the pre-trace table pointwise: provided the
pre-trace table agreed with every hook's captured snapshot at that hook's
location, exiting from any intermediate table that agrees with the pre-trace
table away from the patched locations yields the pre-trace table again. -/
theorem ctxExit_restores [DecidableEq K] (hooks : List (Hook K V)) :
    ∀ (t t' : K → V),
      (∀ h ∈ hooks, t h.key = h.method_impl) →
      (∀ k : K, (∀ h ∈ hooks, k ≠ h.key) → t' k = t k) →
      ∀ k : K, ctxExit t' hooks k = t k := by
  induction hooks with
  | nil => intro t t' _ hagree k; exact hagree k (by simp)
  | cons h hs ih =>
      intro t t' hsnap hagree k
      have hstep : ctxExit t' (h :: hs) = ctxExit (hookExit t' h) hs := rfl
      rw [hstep]
      refine ih t (hookExit t' h) (fun h' hh' => hsnap h' (List.mem_cons_of_mem h hh')) ?_ k
      intro k' hk'
      by_cases hkey : k' = h.key
      · subst hkey
        simpa [hookExit] using (hsnap h (List.mem_cons_self h hs)).symm
      · have : t' k' = t k' := by
          refine hagree k' ?_
          intro h' hh'
          rcases List.mem_cons.mp hh' with rfl | hmem
          · exact hkey
          · exact hk' h' hmem
        simpa [hookExit, hkey] using this

/-- Entering all hooks writes each hook's wrapper at its location, provided
distinct hooks patch distinct locations. -/
theorem ctxEnter_installs [DecidableEq K] (hooks : List (Hook K V)) :
    ∀ t : K → V, (hooks.map Hook.key).Nodup →
      ∀ h ∈ hooks, ctxEnter t hooks h.key = h.wrapped := by
  induction hooks with
  | nil => intro t _ h hh; cases hh
  | cons h hs ih =>
      intro t hnodup h' hh'
      have hstep : ctxEnter t (h :: hs) = ctxEnter (hookEnter t h) hs := rfl
      rcases List.mem_cons.mp hh' with rfl | hmem
      · have hnotin : ∀ g ∈ hs, h'.key ≠ g.key := by
          intro g hg hkeq
          have : h'.key ∈ hs.map Hook.key := by
            rw [hkeq]; exact List.mem_map_of_mem Hook.key hg
          exact (List.nodup_cons.mp hnodup).1 this
        rw [hstep, ctxEnter_untouched hs (hookEnter t h') h'.key hnotin]
        simp [hookEnter]
      · rw [hstep]
        exact ih (hookEnter t h) (List.nodup_cons.mp hnodup).2 h' hmem

/-- C3: Entering a Conversion Context installs the wrapper at every
registration's patched location, and exiting it (Python runs `__exit__` on
every exit path, also when the traced execution or a conversion rule raises)
restores the captured original implementation at each patched location,
leaving the host operator table pointwise exactly as it was before the
trace.  The hypotheses state that distinct hooks patch distinct locations
and that before the trace each patched location still held the snapshot
captured at registration time (`ConversionHook.__enter__/__exit__`,
`ConversionContext.__enter__/__exit__`). -/
theorem conversion_context_restores_table [DecidableEq K]
    (t : K → V) (hooks : List (Hook K V))
    (hsnap : ∀ h ∈ hooks, t h.key = h.method_impl)
    (hnodup : (hooks.map Hook.key).Nodup) :
    (∀ h ∈ hooks, ctxEnter t hooks h.key = h.wrapped)
    ∧ (∀ k : K, ctxExit (ctxEnter t hooks) hooks k = t k) := by
  constructor
  · exact ctxEnter_installs hooks t hnodup
  · intro k
    refine ctxExit_restores hooks t (ctxEnter t hooks) hsnap ?_ k
    intro k' hk'
    exact ctxEnter_untouched hooks t k' hk'

/-- Witness for `conversion_context_restores_table`: two registrations
patching locations 0 and 1 of a three-entry table; entering installs the
wrappers (values 10 and 11) and exiting restores the table to its original
contents at every location. -/
theorem conversion_context_restores_table_witness :
    (∀ h ∈ [(⟨0, 100, 10⟩ : Hook Nat Nat), ⟨1, 101, 11⟩],
      ctxEnter (fun k => 100 + k) [(⟨0, 100, 10⟩ : Hook Nat Nat), ⟨1, 101, 11⟩] h.key = h.wrapped)
    ∧ (∀ k : Nat,
        ctxExit (ctxEnter (fun k => 100 + k) [(⟨0, 100, 10⟩ : Hook Nat Nat), ⟨1, 101, 11⟩])
          [(⟨0, 100, 10⟩ : Hook Nat Nat), ⟨1, 101, 11⟩] k = 100 + k) :=
  conversion_context_restores_table (fun k => 100 + k)
    [(⟨0, 100, 10⟩ : Hook Nat Nat), ⟨1, 101, 11⟩]
    (by intro h hh; fin_cases hh <;> rfl)
    (by decide)

/-! ## Dtype and device mapping (lines 26-73)

A Python function can either return a value or raise; `PyResult` separates
the two.  Note that `torch_device_to_trt` and `torch_device_from_trt` use
`return TypeError(...)` in their fallback branch, so the `TypeError` there is
a *returned value*, not a raised exception; `DeviceMapValue.typeError`
models that returned exception object. -/

inductive PyResult (α : Type) where
  | returned (v : α)
  | raised (msg : String)
  deriving DecidableEq

inductive TorchDtype where
  | bool | int8 | int32 | int64 | float16 | float32 | float64
  deriving DecidableEq

inductive TrtDtype where
  | bool | int8 | int32 | float16 | float32
  deriving DecidableEq

/-- A host device, identified by its `device.type` string (`"cuda"`,
`"cpu"`, or anything else such as `"mps"` or `"xla"`). -/
structure TorchDevice where
  devtype : String
  deriving DecidableEq

inductive TrtLocation where
  | DEVICE | HOST
  deriving DecidableEq

/-- What the device-mapping functions hand back to their caller: either a
genuine engine location / host device, or a `TypeError` exception object
returned as an ordinary value. -/
inductive DeviceMapValue (L : Type) where
  | location (l : L)
  | typeError (msg : String)
  deriving DecidableEq

/-- Source `torch_dtype_to_trt` (lines 26-40): `trt_ge_7` models
`trt_version() >= '7.0'`.  Unsupported dtypes *raise* `TypeError` here
(`raise TypeError(...)`, line 40); `int64` is narrowed to `int32`. -/
def torch_dtype_to_trt (trt_ge_7 : Bool) : TorchDtype → PyResult TrtDtype
  | TorchDtype.bool =>
      if trt_ge_7 then PyResult.returned TrtDtype.bool
      else PyResult.raised "torch.bool is not supported by tensorrt"
  | TorchDtype.int8 => PyResult.returned TrtDtype.int8
  | TorchDtype.int32 => PyResult.returned TrtDtype.int32
  | TorchDtype.float16 => PyResult.returned TrtDtype.float16
  | TorchDtype.float32 => PyResult.returned TrtDtype.float32
  | TorchDtype.int64 => PyResult.returned TrtDtype.int32
  | TorchDtype.float64 => PyResult.raised "torch.float64 is not supported by tensorrt"

/-- Source `torch_device_to_trt` (lines 58-64): maps `"cuda"` to `DEVICE` and
`"cpu"` to `HOST`; for any other device type it executes
`return TypeError(...)` — the exception object is *returned*, not raised. -/
def torch_device_to_trt (d : TorchDevice) : PyResult (DeviceMapValue TrtLocation) :=
  if d.devtype = "cuda" then PyResult.returned (DeviceMapValue.location TrtLocation.DEVICE)
  else if d.devtype = "cpu" then PyResult.returned (DeviceMapValue.location TrtLocation.HOST)
  else PyResult.returned (DeviceMapValue.typeError "device is not supported by tensorrt")

/-- The argument `torch_device_from_trt` is called with: an engine location,
or (since Python is untyped) any other value. -/
inductive TrtLocationLike where
  | DEVICE | HOST | other (s : String)
  deriving DecidableEq

/-- Source `torch_device_from_trt` (lines 67-73): same slip as
`torch_device_to_trt` — the fallback branch *returns* the `TypeError`
object. -/
def torch_device_from_trt (d : TrtLocationLike) : PyResult (DeviceMapValue TorchDevice) :=
  match d with
  | TrtLocationLike.DEVICE => PyResult.returned (DeviceMapValue.location ⟨"cuda"⟩)
  | TrtLocationLike.HOST => PyResult.returned (DeviceMapValue.location ⟨"cpu"⟩)
  | TrtLocationLike.other _ =>
      PyResult.returned (DeviceMapValue.typeError "device is not supported by torch")

/-- C10 (code bug): the claim — and the file's own convention, compare
`raise TypeError` in `torch_dtype_to_trt`, line 40 — requires the mapping
helpers to raise on an unmappable device, so that callers such as
`add_inputs`/`mark_outputs` never receive a non-location value.  The dtype
mapping indeed raises on an unsupported dtype, but `torch_device_to_trt`
and `torch_device_from_trt` *return* the `TypeError` object (`return
TypeError(...)`, lines 64 and 73 — a slip for `raise`), so on the failing
input (a device of type "mps") the caller receives a returned non-location
value instead of an exception. -/
theorem device_mapping_returns_typeerror :
    torch_device_to_trt ⟨"mps"⟩
      = PyResult.returned (DeviceMapValue.typeError "device is not supported by tensorrt")
    ∧ torch_device_from_trt (TrtLocationLike.other "mps")
      = PyResult.returned (DeviceMapValue.typeError "device is not supported by torch")
    ∧ torch_dtype_to_trt true TorchDtype.float64
      = PyResult.raised "torch.float64 is not supported by tensorrt"
    ∧ (∀ l : TrtLocation, torch_device_to_trt ⟨"mps"⟩
        ≠ PyResult.returned (DeviceMapValue.location l)) := by
  refine ⟨rfl, rfl, rfl, ?_⟩
  intro l
  cases l <;> decide

/-! ## Broadcast and constant normalizer (lines 123-261)

Operands of one intercepted call are live host tensors (with an object
identity `id`, a shape and an element type) or raw Python scalars.  The
`_trt` attachment — the Graph Handle association — is a side table from
tensor identity to the TensorRT tensor, carried in the network-builder state
`NetState` together with the constant nodes created so far (shape and
element type of each `network.add_constant` call, in creation order) and a
count of the shuffle layers added.  A TensorRT tensor is represented by its
shape.  Constant and shuffle contents (the numpy payloads) are not needed by
any claim and are not modelled. -/

structure TrtTensor where
  shape : List Nat
  deriving DecidableEq

/-- One `network.add_constant(shape, weight)` call: the shape passed and the
element type of the weight payload. -/
structure ConstEntry (D : Type) where
  shape : List Nat
  dtype : D
  deriving DecidableEq

structure NetState (D : Type) where
  trtOf : Nat → Option TrtTensor
  constants : List (ConstEntry D)
  shuffles : Nat

/-- A builder state with no attachments and no layers, as at the start of a
trace. -/
def NetState.empty : NetState D :=
  { trtOf := fun _ => none, constants := [], shuffles := 0 }

inductive Operand (D : Type) where
  | tensor (id : Nat) (shape : List Nat) (dtype : D)
  | scalar
  deriving DecidableEq

/-- The element type of a live tensor operand; `none` for a scalar. -/
def Operand.dtype? : Operand D → Option D
  | Operand.tensor _ _ d => some d
  | Operand.scalar => none

/-- Source `network.add_constant(shape, ...).get_output(0)`: records the constant
node and yields a TensorRT tensor of that shape. -/
def network_add_constant (s : NetState D) (shape : List Nat) (dtype : D) :
    NetState D × TrtTensor :=
  ({ s with constants := s.constants ++ [⟨shape, dtype⟩] }, ⟨shape⟩)

/-- Source `network.add_shuffle(t)` with `layer.reshape_dims = dims`: records the
shuffle layer and yields a TensorRT tensor of the reshaped shape. -/
def network_add_shuffle (s : NetState D) (dims : List Nat) :
    NetState D × TrtTensor :=
  ({ s with shuffles := s.shuffles + 1 }, ⟨dims⟩)

/-- Source `t._trt = h`: attach the Graph Handle to the tensor identity. -/
def set_trt (s : NetState D) (id : Nat) (h : TrtTensor) : NetState D :=
  { s with trtOf := fun j => if j = id then some h else s.trtOf j }

/-- The loop of `check_torch_dtype` (lines 123-130): `acc` is the running
`dtype` variable; a result of `none` models a failed
`assert dtype == t.dtype`. -/
def check_go [DecidableEq D] (acc : Option D) : List (Operand D) → Option (Option D)
  | [] => some acc
  | Operand.tensor _ _ d :: ts =>
      match acc with
      | none => check_go (some d) ts
      | some d0 => if d0 = d then check_go (some d0) ts else none
  | Operand.scalar :: ts => check_go acc ts

/-- Source `check_torch_dtype` (lines 123-134): infer the single shared element
type of the live tensors among the operands; `none` models a failed
assertion — a dtype mismatch between two tensors, or no tensor to infer
from. -/
def check_torch_dtype [DecidableEq D] (ts : List (Operand D)) : Option D :=
  match check_go none ts with
  | some (some d) => some d
  | _ => none

/-- The `num_preceding_ones` counting loop of `add_missing_trt_tensors`
(lines 161-166): length of the leading run of size-1 dimensions. -/
def num_preceding_ones : List Nat → Nat
  | [] => 0
  | n :: rest => if n = 1 then num_preceding_ones rest + 1 else 0

/-- The loop body of `add_missing_trt_tensors` (lines 143-176) for one
operand: a scalar becomes a shape-`(1,)` constant of the inferred dtype; a
tensor with a `_trt` attachment yields that handle; a tensor without one
becomes a constant of its shape with the leading run of singleton dimensions
stripped, and the handle is attached back onto the tensor. -/
def add_missing_step [DecidableEq D] (dtype : D) (s : NetState D) :
    Operand D → NetState D × TrtTensor
  | Operand.scalar => network_add_constant s [1] dtype
  | Operand.tensor id shp td =>
      match s.trtOf id with
      | some h => (s, h)
      | none =>
          let shape := shp.drop (num_preceding_ones shp)
          let r := network_add_constant s shape td
          (set_trt r.1 id r.2, r.2)

/-- The loop of `add_missing_trt_tensors`, threading the builder state. -/
def add_missing_go [DecidableEq D] (dtype : D) (s : NetState D) :
    List (Operand D) → NetState D × List TrtTensor
  | [] => (s, [])
  | t :: ts =>
      let r1 := add_missing_step dtype s t
      let r2 := add_missing_go dtype r1.1 ts
      (r2.1, r1.2 :: r2.2)

/-- Source `add_missing_trt_tensors` (lines 137-178): check the shared dtype, then
materialize every operand; `none` models the dtype assertion failing. -/
def add_missing_trt_tensors [DecidableEq D] (s : NetState D)
    (tensors : List (Operand D)) : Option (NetState D × List TrtTensor) :=
  match check_torch_dtype tensors with
  | none => none
  | some dtype => some (add_missing_go dtype s tensors)

/-- The left-padding step shared verbatim by `broadcast_trt_tensors`
(lines 187-195) and `trt_` (lines 248-254): if the tensor's rank is below
`ndim`, add a shuffle layer that prepends singleton dimensions. -/
def pad_to_ndim (s : NetState D) (ndim : Nat) (t : TrtTensor) :
    NetState D × TrtTensor :=
  if t.shape.length < ndim then
    network_add_shuffle s (List.replicate (ndim - t.shape.length) 1 ++ t.shape)
  else (s, t)

/-- Source `broadcast_trt_tensors` (lines 181-199): left-pad every handle below the
requested rank. -/
def broadcast_trt_tensors (s : NetState D) (trt_tensors : List TrtTensor)
    (broadcast_ndim : Nat) : NetState D × List TrtTensor :=
  match trt_tensors with
  | [] => (s, [])
  | t :: ts =>
      let r1 := pad_to_ndim s broadcast_ndim t
      let r2 := broadcast_trt_tensors r1.1 ts broadcast_ndim
      (r2.1, r1.2 :: r2.2)

/-- The `num_dim` read for one operand in `trt_`'s broadcast-dimension scan
(lines 210-217): the `_trt` handle's rank when the tensor has one, its
literal rank otherwise. -/
def tensor_num_dim (s : NetState D) (id : Nat) (shp : List Nat) : Nat :=
  match s.trtOf id with
  | none => shp.length
  | some h => h.shape.length

/-- One step of `trt_`'s broadcast-dimension scan: keep the larger of the
accumulator and the operand's `num_dim`; scalars do not contribute. -/
def bnd_acc (s : NetState D) (acc : Nat) : Operand D → Nat
  | Operand.tensor id shp _ =>
      let nd := tensor_num_dim s id shp
      if nd > acc then nd else acc
  | Operand.scalar => acc

/-- Source `trt_` broadcast dimension (lines 208-219): the maximum `num_dim` over
the tensor operands, starting from 0. -/
def broadcast_num_dim (s : NetState D) (ts : List (Operand D)) : Nat :=
  ts.foldl (bnd_acc s) 0

/-- The loop body of `trt_` (lines 221-256) for one operand: a tensor with a
`_trt` attachment yields that handle; a tensor without one becomes a
constant of its full shape (no stripping here — compare `add_missing_step`)
with the handle attached back; a scalar becomes a constant of shape
`(1,) * broadcast_num_dim` of the inferred dtype; finally the result is
left-padded to the broadcast rank if below it. -/
def trt_step [DecidableEq D] (bnd : Nat) (dtype : D) (s : NetState D) :
    Operand D → NetState D × TrtTensor
  | Operand.tensor id shp td =>
      (match s.trtOf id with
        | some h => pad_to_ndim s bnd h
        | none =>
            let r0 := network_add_constant s shp td
            pad_to_ndim (set_trt r0.1 id r0.2) bnd r0.2)
  | Operand.scalar =>
      let r0 := network_add_constant s (List.replicate bnd 1) dtype
      pad_to_ndim r0.1 bnd r0.2

/-- The loop of `trt_`, threading the builder state. -/
def trt_go [DecidableEq D] (bnd : Nat) (dtype : D) (s : NetState D) :
    List (Operand D) → NetState D × List TrtTensor
  | [] => (s, [])
  | t :: ts =>
      let r1 := trt_step bnd dtype s t
      let r2 := trt_go bnd dtype r1.1 ts
      (r2.1, r1.2 :: r2.2)

/-- Source `trt_` (lines 202-261): check the shared dtype, compute the broadcast
dimension against the state at entry, then materialize and pad every
operand.  (The Python function finally unwraps a singleton result list; the
list itself is returned here.) -/
def trt_ [DecidableEq D] (s : NetState D) (tensors : List (Operand D)) :
    Option (NetState D × List TrtTensor) :=
  match check_torch_dtype tensors with
  | none => none
  | some dtype => some (trt_go (broadcast_num_dim s tensors) dtype s tensors)

/-- The ranks of the handles already attached to tensor operands. -/
def handle_ranks (s : NetState D) (ts : List (Operand D)) : List Nat :=
  ts.filterMap fun t =>
    match t with
    | Operand.tensor id _ _ => (s.trtOf id).map fun h => h.shape.length
    | Operand.scalar => none

/-- The literal ranks of the tensor operands. -/
def literal_ranks (ts : List (Operand D)) : List Nat :=
  ts.filterMap fun t =>
    match t with
    | Operand.tensor _ shp _ => some shp.length
    | Operand.scalar => none

/-- The target rank as the spec's words describe it (for comparison with
`broadcast_num_dim`, which the source computes): "the maximum rank among all
operands that already have a Handle, or — when none do — the maximum literal
tensor rank among the inputs". -/
def spec_target_rank (s : NetState D) (ts : List (Operand D)) : Nat :=
  match handle_ranks s ts with
  | [] => (literal_ranks ts).foldl max 0
  | rs => rs.foldl max 0

/-- The element types of the live tensors among the operands, in order. -/
def tensorDtypes (ts : List (Operand D)) : List D :=
  ts.filterMap Operand.dtype?

theorem tensorDtypes_eq_nil_iff (ts : List (Operand D)) :
    tensorDtypes ts = [] ↔ ∀ t ∈ ts, t.dtype? = none := by
  induction ts with
  | nil => simp [tensorDtypes]
  | cons t ts ih =>
      cases t with
      | tensor i shp d => simp [tensorDtypes, Operand.dtype?, List.filterMap_cons]
      | scalar =>
          simp only [tensorDtypes, List.filterMap_cons, Operand.dtype?] at ih ⊢
          simp [ih, Operand.dtype?]

theorem mem_tensorDtypes_iff (ts : List (Operand D)) (d : D) :
    d ∈ tensorDtypes ts ↔ ∃ t ∈ ts, t.dtype? = some d := by
  simp [tensorDtypes, List.mem_filterMap]

/-- Once the running dtype is fixed, a successful scan keeps it fixed. -/
theorem check_go_acc_fixed [DecidableEq D] :
    ∀ (ts : List (Operand D)) (d0 : D) (r : Option D),
      check_go (some d0) ts = some r → r = some d0
  | [], _, _, h => by
      simp only [check_go] at h
      exact (Option.some_injective _ h).symm
  | Operand.tensor i shp d :: ts, d0, r, h => by
      simp only [check_go] at h
      by_cases hd : d0 = d
      · rw [if_pos hd] at h
        exact check_go_acc_fixed ts d0 r h
      · rw [if_neg hd] at h
        cases h
  | Operand.scalar :: ts, d0, r, h => by
      simp only [check_go] at h
      exact check_go_acc_fixed ts d0 r h

/-- A scan started with a fixed dtype succeeds when every remaining tensor
dtype agrees with it. -/
theorem check_go_all_eq [DecidableEq D] :
    ∀ (ts : List (Operand D)) (d0 : D),
      (∀ d' ∈ tensorDtypes ts, d' = d0) → check_go (some d0) ts = some (some d0)
  | [], _, _ => rfl
  | Operand.tensor i shp d :: ts, d0, hall => by
      have hd : d = d0 := hall d (by simp [tensorDtypes, List.filterMap_cons, Operand.dtype?])
      have hrest : ∀ d' ∈ tensorDtypes ts, d' = d0 := by
        intro d' hd'
        exact hall d' (by simp [tensorDtypes, List.filterMap_cons, Operand.dtype?]; right; exact (by simpa [tensorDtypes] using hd'))
      simp only [check_go, hd, if_pos rfl]
      exact check_go_all_eq ts d0 hrest
  | Operand.scalar :: ts, d0, hall => by
      simp only [check_go]
      refine check_go_all_eq ts d0 ?_
      intro d' hd'
      exact hall d' (by simpa [tensorDtypes, List.filterMap_cons, Operand.dtype?] using hd')

/-- A successful scan from a fixed dtype forces every remaining tensor dtype
to agree with it. -/
theorem check_go_forces_eq [DecidableEq D] :
    ∀ (ts : List (Operand D)) (d0 : D) (r : Option D),
      check_go (some d0) ts = some r → ∀ d' ∈ tensorDtypes ts, d' = d0
  | [], _, _, _ => by simp [tensorDtypes]
  | Operand.tensor i shp d :: ts, d0, r, h => by
      simp only [check_go] at h
      by_cases hd : d0 = d
      · rw [if_pos hd] at h
        intro d' hd'
        rcases (by simpa [tensorDtypes, List.filterMap_cons, Operand.dtype?] using hd' :
            d' = d ∨ d' ∈ tensorDtypes ts) with h1 | h1
        · rw [h1, ← hd]
        · exact check_go_forces_eq ts d0 r h d' h1
      · rw [if_neg hd] at h
        cases h
  | Operand.scalar :: ts, d0, r, h => by
      simp only [check_go] at h
      intro d' hd'
      refine check_go_forces_eq ts d0 r h d' ?_
      simpa [tensorDtypes, List.filterMap_cons, Operand.dtype?] using hd'

/-- Lemma: `check_torch_dtype` returns `some d` exactly when there is at least one
tensor operand and every tensor operand's dtype is `d`. -/
theorem check_torch_dtype_eq_some [DecidableEq D] :
    ∀ (ts : List (Operand D)) (d : D),
      check_torch_dtype ts = some d ↔
        (tensorDtypes ts ≠ [] ∧ ∀ d' ∈ tensorDtypes ts, d' = d) := by
  have master : ∀ (ts : List (Operand D)) (d : D),
      check_go (none : Option D) ts = some (some d) ↔
        (tensorDtypes ts ≠ [] ∧ ∀ d' ∈ tensorDtypes ts, d' = d) := by
    intro ts
    induction ts with
    | nil => intro d; simp [check_go, tensorDtypes]
    | cons t ts ih =>
        intro d
        cases t with
        | scalar =>
            simp only [check_go, tensorDtypes, List.filterMap_cons, Operand.dtype?]
            exact ih d
        | tensor i shp d0 =>
            simp only [check_go]
            constructor
            · intro h
              have hr := check_go_acc_fixed ts d0 (some d) h
              have hd : d0 = d := Option.some_injective _ hr.symm
              refine ⟨by simp [tensorDtypes, List.filterMap_cons, Operand.dtype?], ?_⟩
              intro d' hd'
              rcases (by simpa [tensorDtypes, List.filterMap_cons, Operand.dtype?] using hd' :
                  d' = d0 ∨ d' ∈ tensorDtypes ts) with h1 | h1
              · rw [h1, hd]
              · rw [check_go_forces_eq ts d0 (some d) h d' h1, hd]
            · rintro ⟨-, hall⟩
              have hd : d0 = d := hall d0 (by simp [tensorDtypes, List.filterMap_cons, Operand.dtype?])
              have hrest : ∀ d' ∈ tensorDtypes ts, d' = d0 := by
                intro d' hd'
                rw [hall d' (by simp [tensorDtypes, List.filterMap_cons, Operand.dtype?]; right; exact (by simpa [tensorDtypes] using hd')), hd]
              rw [check_go_all_eq ts d0 hrest, hd]
  intro ts d
  unfold check_torch_dtype
  rcases hcg : check_go (none : Option D) ts with _ | r
  · simp only []
    constructor
    · intro h; cases h
    · intro h
      have := (master ts d).mpr h
      rw [hcg] at this
      cases this
  · cases r with
    | none =>
        simp only []
        constructor
        · intro h; cases h
        · intro h
          have := (master ts d).mpr h
          rw [hcg] at this
          cases this
    | some d' =>
        simp only []
        constructor
        · intro h
          have hd : d' = d := Option.some_injective _ h
          subst hd
          exact (master ts d').mp hcg
        · intro h
          have := (master ts d).mpr h
          rw [hcg] at this
          have : d' = d := by
            injection this with h1
            injection h1
          rw [this]

/-- Every constant node that `add_missing_trt_tensors`'s loop creates — for
a scalar or for a handle-less tensor — carries the inferred dtype, provided
every tensor operand's dtype is the inferred one. -/
theorem add_missing_go_dtype [DecidableEq D] (d : D) :
    ∀ (ts : List (Operand D)) (s : NetState D),
      (∀ t ∈ ts, ∀ d', t.dtype? = some d' → d' = d) →
      ∀ c ∈ (add_missing_go d s ts).1.constants, c ∈ s.constants ∨ c.dtype = d := by
  intro ts
  induction ts with
  | nil => intro s _ c hc; exact Or.inl hc
  | cons t ts ih =>
      intro s hall c hc
      have hstep : ∀ c' ∈ (add_missing_step d s t).1.constants,
          c' ∈ s.constants ∨ c'.dtype = d := by
        cases t with
        | scalar =>
            intro c' hc'
            simp only [add_missing_step, network_add_constant] at hc'
            rcases List.mem_append.mp hc' with h1 | h1
            · exact Or.inl h1
            · right
              have hcd : c' = ⟨[1], d⟩ := by simpa using h1
              rw [hcd]
        | tensor i shp td =>
            intro c' hc'
            simp only [add_missing_step] at hc'
            rcases htrt : s.trtOf i with _ | h
            · rw [htrt] at hc'
              simp only [network_add_constant, set_trt] at hc'
              rcases List.mem_append.mp hc' with h1 | h1
              · exact Or.inl h1
              · right
                have hcd : c' = ⟨shp.drop (num_preceding_ones shp), td⟩ := by simpa using h1
                rw [hcd]
                exact hall (Operand.tensor i shp td) (by simp) td rfl
            · rw [htrt] at hc'
              exact Or.inl hc'
      simp only [add_missing_go] at hc
      have hrec := ih (add_missing_step d s t).1
        (fun t' ht' d' hd' => hall t' (List.mem_cons_of_mem t ht') d' hd') c hc
      rcases hrec with h1 | h1
      · exact hstep c h1
      · exact Or.inr h1

/-- C9: Element-type inference over one call's operand list
(`check_torch_dtype`, lines 123-134) signals an error exactly when the list
contains two live tensors of different element types or contains no live
tensor at all; otherwise it returns the shared element type of the live
tensors, and every constant node materialized by
`add_missing_trt_tensors` for that operand list — in particular those
materializing scalar operands — carries that inferred element type. -/
theorem check_torch_dtype_error_spec [DecidableEq D] (ts : List (Operand D)) :
    (check_torch_dtype ts = none ↔
      (∀ t ∈ ts, t.dtype? = none)
      ∨ (∃ t1 ∈ ts, ∃ t2 ∈ ts, ∃ d1 d2,
          t1.dtype? = some d1 ∧ t2.dtype? = some d2 ∧ d1 ≠ d2))
    ∧ (∀ d, check_torch_dtype ts = some d →
        (∃ t ∈ ts, t.dtype? = some d) ∧ ∀ t ∈ ts, ∀ d', t.dtype? = some d' → d' = d)
    ∧ (∀ d (s : NetState D) r, check_torch_dtype ts = some d →
        add_missing_trt_tensors s ts = some r →
        ∀ c ∈ r.1.constants, c ∈ s.constants ∨ c.dtype = d) := by
  have hsome : ∀ d, check_torch_dtype ts = some d →
      (∃ t ∈ ts, t.dtype? = some d) ∧ ∀ t ∈ ts, ∀ d', t.dtype? = some d' → d' = d := by
    intro d h
    obtain ⟨hne, hall⟩ := (check_torch_dtype_eq_some ts d).mp h
    constructor
    · obtain ⟨d0, hd0⟩ := List.exists_mem_of_ne_nil _ hne
      obtain ⟨t, ht, htd⟩ := (mem_tensorDtypes_iff ts d0).mp hd0
      rw [hall d0 hd0] at htd
      exact ⟨t, ht, htd⟩
    · intro t ht d' hd'
      exact hall d' ((mem_tensorDtypes_iff ts d').mpr ⟨t, ht, hd'⟩)
  refine ⟨?_, hsome, ?_⟩
  · constructor
    · intro h
      by_cases hE : tensorDtypes ts = []
      · exact Or.inl ((tensorDtypes_eq_nil_iff ts).mp hE)
      · right
        obtain ⟨d0, rest, hcons⟩ := List.exists_cons_of_ne_nil hE
        by_cases hall : ∀ d' ∈ tensorDtypes ts, d' = d0
        · exfalso
          have := (check_torch_dtype_eq_some ts d0).mpr ⟨hE, hall⟩
          rw [h] at this
          cases this
        · push_neg at hall
          obtain ⟨d', hd'mem, hd'ne⟩ := hall
          have hd0mem : d0 ∈ tensorDtypes ts := by
            rw [hcons]; exact List.mem_cons_self _ _
          obtain ⟨t1, ht1, ht1d⟩ := (mem_tensorDtypes_iff ts d0).mp hd0mem
          obtain ⟨t2, ht2, ht2d⟩ := (mem_tensorDtypes_iff ts d').mp hd'mem
          exact ⟨t1, ht1, t2, ht2, d0, d', ht1d, ht2d, fun he => hd'ne he.symm⟩
    · intro h
      rcases hC : check_torch_dtype ts with _ | d
      · rfl
      · exfalso
        obtain ⟨hne, hall⟩ := (check_torch_dtype_eq_some ts d).mp hC
        rcases h with hnone | ⟨t1, ht1, t2, ht2, d1, d2, h1, h2, hne12⟩
        · exact hne ((tensorDtypes_eq_nil_iff ts).mpr hnone)
        · have e1 : d1 = d := hall d1 ((mem_tensorDtypes_iff ts d1).mpr ⟨t1, ht1, h1⟩)
          have e2 : d2 = d := hall d2 ((mem_tensorDtypes_iff ts d2).mpr ⟨t2, ht2, h2⟩)
          exact hne12 (e1.trans e2.symm)
  · intro d s r hc hr
    unfold add_missing_trt_tensors at hr
    rw [hc] at hr
    have hreq : r = add_missing_go d s ts := by
      injection hr with h1
      exact h1.symm
    rw [hreq]
    exact add_missing_go_dtype d ts s (hsome d hc).2

/-- Witness for `check_torch_dtype_error_spec` on the operand list
`[tensor of dtype 7, scalar]`: inference returns 7, shared by the one
tensor, and materializing the list from an empty builder state yields only
constants of dtype 7. -/
theorem check_torch_dtype_error_spec_witness :
    ((∃ t ∈ ([Operand.tensor 0 [2] 7, Operand.scalar] : List (Operand Nat)),
        t.dtype? = some 7)
      ∧ ∀ t ∈ ([Operand.tensor 0 [2] 7, Operand.scalar] : List (Operand Nat)),
          ∀ d', t.dtype? = some d' → d' = 7)
    ∧ (∀ c ∈ (add_missing_go 7 (NetState.empty : NetState Nat)
          [Operand.tensor 0 [2] 7, Operand.scalar]).1.constants,
        c ∈ (NetState.empty : NetState Nat).constants ∨ c.dtype = 7) :=
  ⟨(check_torch_dtype_error_spec [Operand.tensor 0 [2] 7, Operand.scalar]).2.1 7 rfl,
   (check_torch_dtype_error_spec [Operand.tensor 0 [2] 7, Operand.scalar]).2.2 7
     NetState.empty
     (add_missing_go 7 NetState.empty [Operand.tensor 0 [2] 7, Operand.scalar])
     rfl rfl⟩

/-- Dropping the leading run of ones is the same as `dropWhile (· == 1)`:
dimensions after the first non-singleton dimension are kept even when they
are 1. -/
theorem drop_num_preceding_ones_eq_dropWhile :
    ∀ l : List Nat, l.drop (num_preceding_ones l) = l.dropWhile (fun n => n == 1)
  | [] => rfl
  | n :: l => by
      by_cases h : n = 1
      · simp only [num_preceding_ones, if_pos h, List.drop_succ_cons, List.dropWhile,
          h]
        exact drop_num_preceding_ones_eq_dropWhile l
      · simp only [num_preceding_ones, if_neg h, List.drop_zero, List.dropWhile]
        rw [show (n == 1) = false from beq_false_of_ne h]

/-- C7 counterexample: the claim — the leading singleton run is stripped in
*both* constant-materialization code paths — is false for the `trt_` path at
the concrete operand list `[tensor id 0, shape (1, 2), no handle]` from an
empty builder state: the constant node is created with the full shape
`[1, 2]` (lines 233-235, `shape = tuple(t.shape)`), not the stripped shape
`[2]` that `add_missing_trt_tensors` would use. -/
theorem trt_constant_not_stripped_counterexample :
    (trt_ (NetState.empty : NetState Nat) [Operand.tensor 0 [1, 2] 0]).map
        (fun r => r.1.constants.map ConstEntry.shape) = some [[1, 2]]
    ∧ [1, 2] ≠ List.drop (num_preceding_ones [1, 2]) [1, 2] := by
  constructor
  · rfl
  · decide

/-- C7 amended: when a live tensor without a Graph Handle is materialized as
a constant, `add_missing_trt_tensors` (lines 158-171) creates the constant
with the tensor's shape minus its leading run of singleton dimensions
(dimensions after the first non-singleton one are kept even if they are 1),
while `trt_` (lines 231-236) creates the constant with the tensor's full
shape, unstripped. -/
theorem constant_shape_policies [DecidableEq D] (s : NetState D) (d td : D)
    (id : Nat) (shp : List Nat) (bnd : Nat) (h : s.trtOf id = none) :
    ((add_missing_step d s (Operand.tensor id shp td)).1.constants
        = s.constants ++ [⟨shp.drop (num_preceding_ones shp), td⟩]
      ∧ shp.drop (num_preceding_ones shp) = shp.dropWhile (fun n => n == 1))
    ∧ (trt_step bnd d s (Operand.tensor id shp td)).1.constants
        = s.constants ++ [⟨shp, td⟩] := by
  refine ⟨⟨?_, drop_num_preceding_ones_eq_dropWhile shp⟩, ?_⟩
  · simp [add_missing_step, h, network_add_constant, set_trt]
  · simp only [trt_step, h, network_add_constant, set_trt, pad_to_ndim]
    by_cases hlt : shp.length < bnd
    · simp [hlt, network_add_shuffle]
    · simp [hlt]

/-- Witness for `constant_shape_policies` at a tensor of shape `(1, 1, 3, 1)`
materialized from an empty builder state: `add_missing_trt_tensors` records
a constant of shape `[3, 1]` — the trailing 1 is kept — while `trt_` records
a constant of the full shape `[1, 1, 3, 1]`. -/
theorem constant_shape_policies_witness :
    ((add_missing_step 0 (NetState.empty : NetState Nat)
        (Operand.tensor 4 [1, 1, 3, 1] 0)).1.constants
        = (NetState.empty : NetState Nat).constants
            ++ [⟨[1, 1, 3, 1].drop (num_preceding_ones [1, 1, 3, 1]), 0⟩]
      ∧ [1, 1, 3, 1].drop (num_preceding_ones [1, 1, 3, 1])
          = [1, 1, 3, 1].dropWhile (fun n => n == 1))
    ∧ (trt_step 4 0 (NetState.empty : NetState Nat)
        (Operand.tensor 4 [1, 1, 3, 1] 0)).1.constants
        = (NetState.empty : NetState Nat).constants ++ [⟨[1, 1, 3, 1], 0⟩] :=
  constant_shape_policies NetState.empty 0 0 4 [1, 1, 3, 1] 4 rfl

/-- C8: Materialization is idempotent per tensor within one trace.  The
first materialization of a live tensor without a Graph Handle creates one
constant node and attaches the resulting handle onto the tensor
(`t._trt = ...`, line 170 resp. 235); materializing the same tensor again —
through `add_missing_trt_tensors` or through `trt_` — returns that same
attached handle and leaves the builder state untouched: no second constant
node is emitted. -/
theorem materialization_idempotent [DecidableEq D] (s : NetState D) (id : Nat)
    (shp : List Nat) (d : D) (h : s.trtOf id = none) :
    ∃ (s1 : NetState D) (ht : TrtTensor),
      add_missing_trt_tensors s [Operand.tensor id shp d] = some (s1, [ht])
      ∧ s1.trtOf id = some ht
      ∧ s1.constants = s.constants ++ [⟨shp.drop (num_preceding_ones shp), d⟩]
      ∧ add_missing_trt_tensors s1 [Operand.tensor id shp d] = some (s1, [ht])
      ∧ trt_ s1 [Operand.tensor id shp d] = some (s1, [ht]) := by
  refine ⟨set_trt { s with constants := s.constants
      ++ [⟨shp.drop (num_preceding_ones shp), d⟩] } id ⟨shp.drop (num_preceding_ones shp)⟩,
    ⟨shp.drop (num_preceding_ones shp)⟩, ?_, ?_, ?_, ?_, ?_⟩
  · simp only [add_missing_trt_tensors, check_torch_dtype, check_go,
      add_missing_go, add_missing_step, h]
    rfl
  · simp [set_trt]
  · rfl
  · simp only [add_missing_trt_tensors, check_torch_dtype, check_go,
      add_missing_go, add_missing_step]
    simp [set_trt]
  · have htrt : (set_trt { s with constants := s.constants
        ++ [⟨shp.drop (num_preceding_ones shp), d⟩] } id
          ⟨shp.drop (num_preceding_ones shp)⟩).trtOf id
        = some ⟨shp.drop (num_preceding_ones shp)⟩ := by simp [set_trt]
    simp only [trt_, check_torch_dtype, check_go, broadcast_num_dim, List.foldl,
      bnd_acc, tensor_num_dim, htrt, trt_go, trt_step, pad_to_ndim]
    have hbnd : (if (shp.drop (num_preceding_ones shp)).length > 0
        then (shp.drop (num_preceding_ones shp)).length else 0)
        = (shp.drop (num_preceding_ones shp)).length := by
      split <;> omega
    rw [hbnd]
    simp

/-- Witness for `materialization_idempotent`: tensor identity 3 of shape
`(1, 2)` and dtype 5, materialized from an empty builder state. -/
theorem materialization_idempotent_witness :
    ∃ (s1 : NetState Nat) (ht : TrtTensor),
      add_missing_trt_tensors (NetState.empty : NetState Nat)
          [Operand.tensor 3 [1, 2] 5] = some (s1, [ht])
      ∧ s1.trtOf 3 = some ht
      ∧ s1.constants = (NetState.empty : NetState Nat).constants
          ++ [⟨[1, 2].drop (num_preceding_ones [1, 2]), 5⟩]
      ∧ add_missing_trt_tensors s1 [Operand.tensor 3 [1, 2] 5] = some (s1, [ht])
      ∧ trt_ s1 [Operand.tensor 3 [1, 2] 5] = some (s1, [ht]) :=
  materialization_idempotent NetState.empty 3 [1, 2] 5 rfl

/-! ## Ranks after `trt_` (claim C4) -/

/-- The operand's effective rank — handle rank if attached, literal rank
otherwise; nothing for a scalar — is bounded by `bnd`. -/
def rank_le (s : NetState D) (bnd : Nat) : Operand D → Prop
  | Operand.tensor id shp _ => tensor_num_dim s id shp ≤ bnd
  | Operand.scalar => True

theorem le_bnd_acc (s : NetState D) (acc : Nat) (t : Operand D) :
    acc ≤ bnd_acc s acc t := by
  cases t with
  | tensor i shp d =>
      simp only [bnd_acc]
      split <;> omega
  | scalar => exact le_refl acc

theorem le_foldl_bnd_acc (s : NetState D) :
    ∀ (ts : List (Operand D)) (acc : Nat), acc ≤ ts.foldl (bnd_acc s) acc := by
  intro ts
  induction ts with
  | nil => intro acc; exact le_refl acc
  | cons t ts ih =>
      intro acc
      exact le_trans (le_bnd_acc s acc t) (ih (bnd_acc s acc t))

/-- Every operand's effective rank is bounded by the broadcast dimension the
scan computes. -/
theorem rank_le_broadcast_num_dim (s : NetState D) :
    ∀ (ts : List (Operand D)) (acc : Nat) (t : Operand D), t ∈ ts →
      rank_le s (ts.foldl (bnd_acc s) acc) t := by
  intro ts
  induction ts with
  | nil => intro acc t ht; cases ht
  | cons t0 ts ih =>
      intro acc t ht
      rcases List.mem_cons.mp ht with rfl | hmem
      · cases t with
        | tensor i shp d =>
            simp only [rank_le, List.foldl]
            refine le_trans ?_ (le_foldl_bnd_acc s ts (bnd_acc s acc (Operand.tensor i shp d)))
            simp only [bnd_acc]
            split <;> omega
        | scalar => trivial
      · exact ih (bnd_acc s acc t0) t hmem

/-- Left-padding brings a handle of rank at most `bnd` to rank exactly
`bnd`. -/
theorem pad_to_ndim_length (s : NetState D) (bnd : Nat) (t : TrtTensor)
    (h : t.shape.length ≤ bnd) :
    (pad_to_ndim s bnd t).2.shape.length = bnd := by
  unfold pad_to_ndim
  by_cases hlt : t.shape.length < bnd
  · simp only [if_pos hlt, network_add_shuffle]
    simp [List.length_replicate]
    omega
  · simp only [if_neg hlt]
    omega

/-- Lemma: `pad_to_ndim` leaves the handle attachment table untouched. -/
theorem pad_to_ndim_trtOf (s : NetState D) (bnd : Nat) (t : TrtTensor) :
    (pad_to_ndim s bnd t).1.trtOf = s.trtOf := by
  unfold pad_to_ndim
  split <;> rfl

/-- One `trt_` loop step emits a handle of rank exactly `bnd` and preserves
the rank bound of every other operand. -/
theorem trt_step_rank [DecidableEq D] (bnd : Nat) (dty : D) (s : NetState D)
    (t : Operand D) (ht : rank_le s bnd t) :
    (trt_step bnd dty s t).2.shape.length = bnd
    ∧ ∀ t' : Operand D, rank_le s bnd t' → rank_le (trt_step bnd dty s t).1 bnd t' := by
  cases t with
  | scalar =>
      constructor
      · simp only [trt_step, network_add_constant]
        exact pad_to_ndim_length _ bnd ⟨List.replicate bnd 1⟩ (by simp)
      · intro t' ht'
        cases t' with
        | scalar => trivial
        | tensor i' shp' d' =>
            simp only [rank_le, tensor_num_dim] at ht' ⊢
            simp only [trt_step, network_add_constant, pad_to_ndim_trtOf]
            exact ht'
  | tensor i shp d =>
      rcases htrt : s.trtOf i with _ | hnd
      · constructor
        · simp only [trt_step, htrt, network_add_constant]
          refine pad_to_ndim_length _ bnd ⟨shp⟩ ?_
          simpa [rank_le, tensor_num_dim, htrt] using ht
        · intro t' ht'
          cases t' with
          | scalar => trivial
          | tensor i' shp' d' =>
              simp only [rank_le, tensor_num_dim] at ht' ⊢
              simp only [trt_step, htrt, network_add_constant, pad_to_ndim_trtOf, set_trt]
              by_cases hii : i' = i
              · subst hii
                simp only [if_pos rfl]
                simpa [rank_le, tensor_num_dim, htrt] using ht
              · simp only [if_neg hii]
                exact ht'
      · constructor
        · simp only [trt_step, htrt]
          refine pad_to_ndim_length _ bnd hnd ?_
          simpa [rank_le, tensor_num_dim, htrt] using ht
        · intro t' ht'
          cases t' with
          | scalar => trivial
          | tensor i' shp' d' =>
              simp only [rank_le, tensor_num_dim] at ht' ⊢
              simp only [trt_step, htrt, pad_to_ndim_trtOf]
              exact ht'

/-- Every handle returned by the `trt_` loop has rank exactly `bnd`,
provided every operand's effective rank at loop entry is at most `bnd`. -/
theorem trt_go_ranks [DecidableEq D] (bnd : Nat) (dty : D) :
    ∀ (ts : List (Operand D)) (s : NetState D),
      (∀ t ∈ ts, rank_le s bnd t) →
      ∀ o ∈ (trt_go bnd dty s ts).2, o.shape.length = bnd := by
  intro ts
  induction ts with
  | nil => intro s _ o ho; cases ho
  | cons t ts ih =>
      intro s hall o ho
      simp only [trt_go] at ho
      have hstep := trt_step_rank bnd dty s t (hall t (List.mem_cons_self t ts))
      rcases List.mem_cons.mp ho with rfl | hmem
      · exact hstep.1
      · refine ih (trt_step bnd dty s t).1 ?_ o hmem
        intro t' ht'
        exact hstep.2 t' (hall t' (List.mem_cons_of_mem t ht'))

/-- C4 amended: whenever `trt_` succeeds, every returned handle has rank
exactly `broadcast_num_dim` — the maximum, over the tensor operands, of the
attached handle's rank when the tensor has one and the literal tensor rank
otherwise (lines 208-219); lower-rank operands are left-padded with
singleton dimensions and scalar operands are materialized at that rank.
(The spec's description of the target rank — maximum over handled operands
only, falling back to literal ranks when no operand has a handle — differs
from the source; see the counterexample.) -/
theorem trt_broadcast_rank [DecidableEq D] (s : NetState D) (ts : List (Operand D)) :
    ∀ outs ∈ (trt_ s ts).map Prod.snd,
      ∀ o ∈ outs, o.shape.length = broadcast_num_dim s ts := by
  intro outs houts o ho
  rcases hc : check_torch_dtype ts with _ | dty
  · rw [Option.mem_def, trt_, hc] at houts
    cases houts
  · rw [Option.mem_def, trt_, hc] at houts
    simp only [Option.map_some] at houts
    have houts2 : outs = (trt_go (broadcast_num_dim s ts) dty s ts).2 := by
      injection houts with h1
      exact h1.symm
    rw [houts2] at ho
    refine trt_go_ranks (broadcast_num_dim s ts) dty ts s ?_ o ho
    intro t ht
    exact rank_le_broadcast_num_dim s ts 0 t ht

/-- Witness for `trt_broadcast_rank`: operands `[tensor of shape (2, 3)
without handle, scalar]` from an empty builder state; `trt_` succeeds, the
broadcast dimension is 2, and both returned handles — the tensor constant
`(2, 3)` and the scalar constant `(1, 1)` — have rank exactly 2. -/
theorem trt_broadcast_rank_witness :
    (⟨[2, 3]⟩ : TrtTensor).shape.length
      = broadcast_num_dim (NetState.empty : NetState Nat)
          [Operand.tensor 0 [2, 3] 9, Operand.scalar]
    ∧ (⟨[1, 1]⟩ : TrtTensor).shape.length
      = broadcast_num_dim (NetState.empty : NetState Nat)
          [Operand.tensor 0 [2, 3] 9, Operand.scalar] :=
  ⟨trt_broadcast_rank (NetState.empty : NetState Nat)
      [Operand.tensor 0 [2, 3] 9, Operand.scalar] [⟨[2, 3]⟩, ⟨[1, 1]⟩] rfl
      ⟨[2, 3]⟩ (by simp),
   trt_broadcast_rank (NetState.empty : NetState Nat)
      [Operand.tensor 0 [2, 3] 9, Operand.scalar] [⟨[2, 3]⟩, ⟨[1, 1]⟩] rfl
      ⟨[1, 1]⟩ (by simp)⟩

/-- The concrete state for the C4 counterexample: tensor identity 0 already
carries a rank-2 handle. -/
def cexState : NetState Nat :=
  { trtOf := fun j => if j = 0 then some ⟨[2, 3]⟩ else none,
    constants := [], shuffles := 0 }

/-- The concrete operand list for the C4 counterexample: the handled rank-2
tensor together with a handle-less rank-4 tensor. -/
def cexOps : List (Operand Nat) :=
  [Operand.tensor 0 [2, 3] 0, Operand.tensor 1 [1, 2, 3, 4] 0]

/-- C4 counterexample: the claim's target rank — "the maximum rank among
operands that already have a Graph Handle, or, when no operand has a
Handle, the maximum literal tensor rank" (`spec_target_rank`) — is not what
`trt_` produces.  At `cexState`/`cexOps` the spec's target rank is 2 (the
only handled operand has rank 2), but the source takes the literal rank 4
of the handle-less tensor into account, so `trt_` returns handles of rank
4, not 2. -/
theorem trt_rank_spec_counterexample :
    ¬ (∀ (s : NetState Nat) (ts : List (Operand Nat)),
        ∀ outs ∈ (trt_ s ts).map Prod.snd,
          ∀ o ∈ outs, o.shape.length = spec_target_rank s ts) := by
  intro hclaim
  have hmap : (trt_ cexState cexOps).map Prod.snd
      = some [⟨[1, 1, 2, 3]⟩, ⟨[1, 2, 3, 4]⟩] := rfl
  have hmem : ((⟨[1, 1, 2, 3]⟩ : TrtTensor) ∈ [(⟨[1, 1, 2, 3]⟩ : TrtTensor), ⟨[1, 2, 3, 4]⟩]) := by
    simp
  have h4 := hclaim cexState cexOps [⟨[1, 1, 2, 3]⟩, ⟨[1, 2, 3, 4]⟩] hmap
    ⟨[1, 1, 2, 3]⟩ hmem
  have hspec : spec_target_rank cexState cexOps = 2 := rfl
  rw [hspec] at h4
  exact absurd h4 (by decide)

/-! ## Converter registration (lines 612-659)

`get_module_qualname(name)` splits a dotted path and probes progressively
shorter prefixes as module names — `importlib.import_module` succeeding is
modelled by the environment `env` returning a module for the prefix — and
raises `RuntimeError("Could not import module")` when no prefix is
importable (the probe for the empty prefix models `import_module("")`,
which always raises).  `tensorrt_converter` then captures a deep copy of
the resolved attribute (`eval('copy.deepcopy(module.%s)')`, modelled by
`attr`, with `none` for a raised and caught capture failure), disables the
registration when capture fails, and otherwise stores the entry in
`CONVERTERS` keyed by the operation identity.  Dotted paths are modelled as
lists of components; only the string-path registration form is modelled
(the bound-method form resolves its module directly from `__module__`). -/

structure ConvEntry (M V R : Type) where
  converter : R
  is_real : Bool
  module : M
  module_name : List String
  qual_name : List String
  method_str : List String
  method_impl : V

/-- The probe loop of `get_module_qualname` (lines 615-622), trying prefix
lengths `n, n-1, ..., 0`. -/
def gmq_try (env : List String → Option M) (s : List String) :
    Nat → Option (M × List String × List String)
  | 0 =>
      (match env (s.take 0) with
        | some m => some (m, s.take 0, s.drop 0)
        | none => none)
  | n + 1 =>
      (match env (s.take (n + 1)) with
        | some m => some (m, s.take (n + 1), s.drop (n + 1))
        | none => gmq_try env s n)

/-- Source `get_module_qualname` (lines 612-624): probe prefixes from length
`len - 1` down to 0; raise `RuntimeError` when none is importable. -/
def get_module_qualname (env : List String → Option M) (s : List String) :
    Except String (M × List String × List String) :=
  if s.length = 0 then Except.error "Could not import module"
  else
    match gmq_try env s (s.length - 1) with
    | some r => Except.ok r
    | none => Except.error "Could not import module"

/-- Source `tensorrt_converter` (lines 627-659) for a dotted-path registration:
resolve the module and qualified name (a failure here — `RuntimeError` from
`get_module_qualname` — propagates to the caller), attempt to capture a deep
copy of the current implementation (a failure here is caught and disables
the registration, so `pass_converter` leaves the registry unchanged), and
on success with `enabled` store the entry in the registry under the
operation identity `methodPath`. -/
def tensorrt_converter (env : List String → Option M)
    (attr : M → List String → Option V)
    (reg : List String → Option (ConvEntry M V R))
    (methodPath : List String) (is_real enabled : Bool) (rule : R) :
    Except String (List String → Option (ConvEntry M V R)) :=
  match get_module_qualname env methodPath with
  | Except.error e => Except.error e
  | Except.ok (m, mn, qn) =>
      match attr m qn with
      | none => Except.ok reg
      | some impl =>
          if enabled then
            Except.ok (fun k => if k = methodPath then
                some ⟨rule, is_real, m, mn, qn, mn ++ qn, impl⟩
              else reg k)
          else Except.ok reg

/-- C6 counterexample: a registration whose dotted path has no importable
prefix is not "skipped without raising" — `get_module_qualname` exhausts its
probes and the `RuntimeError` propagates out of `tensorrt_converter`
(line 624 is outside the `try` of lines 618-622).  Concrete input: the path
`nosuchmodule.fn` in an environment where nothing is importable. -/
theorem tensorrt_converter_raises_counterexample :
    tensorrt_converter (fun _ => (none : Option Unit))
      (fun (_ : Unit) (_ : List String) => (none : Option Unit))
      (fun _ => (none : Option (ConvEntry Unit Unit Unit)))
      ["nosuchmodule", "fn"] true true ()
      = Except.error "Could not import module" := rfl

/-- C6 amended: for a registration call whose dotted path resolves to an
importable module prefix, a failure to capture a copy of the current
implementation skips that single registration without raising and without
touching the registry; when capture succeeds (and the registration is
enabled) the entry stored under the operation identity carries the captured
copy, and every other key of the registry is unaffected.  When no prefix of
the dotted path is importable, however, the registration raises
(`tensorrt_converter_raises_counterexample`). -/
theorem tensorrt_converter_amended (env : List String → Option M)
    (attr : M → List String → Option V)
    (reg : List String → Option (ConvEntry M V R))
    (methodPath : List String) (is_real enabled : Bool) (rule : R)
    (m : M) (mn qn : List String)
    (hres : get_module_qualname env methodPath = Except.ok (m, mn, qn)) :
    (attr m qn = none →
      tensorrt_converter env attr reg methodPath is_real enabled rule = Except.ok reg)
    ∧ (∀ impl, attr m qn = some impl → enabled = true →
        ∃ reg2, tensorrt_converter env attr reg methodPath is_real enabled rule
            = Except.ok reg2
          ∧ reg2 methodPath = some ⟨rule, is_real, m, mn, qn, mn ++ qn, impl⟩
          ∧ ∀ k, k ≠ methodPath → reg2 k = reg k) := by
  constructor
  · intro hcap
    simp only [tensorrt_converter, hres, hcap]
  · intro impl hcap hen
    simp only [tensorrt_converter, hres, hcap, hen, if_true]
    refine ⟨_, rfl, ?_, ?_⟩
    · simp
    · intro k hk
      simp [hk]

/-- Witness for `tensorrt_converter_amended` in an environment where
exactly the module `torch` is importable: registering `torch.relu` with a
failing capture leaves the empty registry unchanged, while registering it
with a successful capture (value 42) stores the entry under
`["torch", "relu"]`. -/
theorem tensorrt_converter_amended_witness :
    (tensorrt_converter (fun p => if p = ["torch"] then some () else none)
        (fun (_ : Unit) (_ : List String) => (none : Option Nat))
        (fun _ => (none : Option (ConvEntry Unit Nat Nat)))
        ["torch", "relu"] true true 0
      = Except.ok (fun _ => (none : Option (ConvEntry Unit Nat Nat))))
    ∧ (∃ reg2, tensorrt_converter (fun p => if p = ["torch"] then some () else none)
          (fun (_ : Unit) (q : List String) => if q = ["relu"] then some 42 else none)
          (fun _ => (none : Option (ConvEntry Unit Nat Nat)))
          ["torch", "relu"] true true 0
        = Except.ok reg2
        ∧ reg2 ["torch", "relu"]
            = some ⟨0, true, (), ["torch"], ["relu"], ["torch"] ++ ["relu"], 42⟩
        ∧ ∀ k, k ≠ ["torch", "relu"] → reg2 k = none) :=
  ⟨(tensorrt_converter_amended (fun p => if p = ["torch"] then some () else none)
      (fun _ _ => none) (fun _ => none) ["torch", "relu"] true true 0
      () ["torch"] ["relu"] rfl).1 rfl,
   (tensorrt_converter_amended (fun p => if p = ["torch"] then some () else none)
      (fun _ q => if q = ["relu"] then some 42 else none) (fun _ => none)
      ["torch", "relu"] true true 0
      () ["torch"] ["relu"] rfl).2 42 (by simp) rfl⟩

end Torch2TRT
